import Mathlib

/-!
Verification of the checkpoint subsystem of GNU tar (src/checkpoint.c).

The development shallowly embeds the unit's data model and operations:
C strings are `List Char` (NUL-terminated scanning is modelled explicitly
where the claim concerns it), machine integers are `Nat` (the checkpoint
counter and widths only ever hold small non-negative values in the
modelled executions), fallible compilation returns `Except`, and the
process-global mutable state (`checkpoint`, action list, lifecycle state,
signal set, signal mask, terminal handle and dirty flag) is threaded as an
explicit `CkSt` record.  External collaborators that live outside
src/checkpoint.c (stoint, decode_signal, wordsplit, format_total_stats,
fprintftime, unquote_string, the DEFAULT_CHECKPOINT constant) are modelled
from the specification, each marked as such in its doc comment.
-/

namespace TarCheckpoint

/-- The NUL character terminating C strings. -/
def nulC : Char := Char.ofNat 0

/-- The single-quote character. -/
def sqC : Char := Char.ofNat 39

/-- The double-quote character. -/
def dqC : Char := Char.ofNat 34

/-- Opening curly brace. -/
def openBr : Char := Char.ofNat 123

/-- Closing curly brace. -/
def closeBr : Char := Char.ofNat 125

/-- Carriage return. -/
def crC : Char := Char.ofNat 13

/-- The percent sign introducing a format directive. -/
def pctC : Char := '%'

/-- Environment of external collaborators consumed through narrow
interfaces.  Each field models, per the specification, a dependency of
src/checkpoint.c whose code is outside that file. -/
structure Env where
  /-- Modelled from the spec: result of the TIOCGWINSZ window-size probe
  (`none` = probe failed, `some w` = reported column count). -/
  winsz : Option Nat
  /-- Modelled from the spec: the COLUMNS environment variable. -/
  columns : Option (List Char)
  /-- Modelled from the spec: the external duration accumulator, in whole
  seconds, as printed by the `%d` directive. -/
  duration : Nat
  /-- Modelled from the spec: format_total_stats, the external totals
  formatter; given the three effective labels it produces the text it
  writes to the stream. -/
  totalsOut : List (List Char) → List Char
  /-- Modelled from the spec: fprintftime rendering of the current local
  time under the given strftime-like pattern. -/
  timeOut : List Char → List Char
  /-- Modelled from the spec: whether localtime conversion succeeds. -/
  localtimeOk : Bool
  /-- Modelled from the spec: unquote_string, the escape-sequence resolver
  applied by copy_string_unquote after quote stripping. -/
  unquoteEsc : List Char → List Char
  /-- Modelled from the spec: decode_signal, the name/number lookup
  resolving a `wait=` payload to a signal identifier. -/
  decodeSignal : List Char → Nat
  /-- Modelled from the spec: whether opening /dev/tty for writing
  succeeds. -/
  ttyAvail : Bool
  /-- Modelled from the spec: the DEFAULT_CHECKPOINT constant (the default
  tick interval applied when checkpointing is enabled without an explicit
  interval). -/
  defaultCheckpoint : Nat
  /-- Modelled from the spec: program_name, the prefix printed before echo
  lines. -/
  progName : List Char

/-- Modelled from the spec: the digit-consuming core of stoint (stoint is
declared in src/checkpoint.c's includes but defined outside src/): it
consumes leading decimal digits and returns the value and the rest. -/
def stointGo : List Char → Nat → Nat × List Char
  | [], acc => (acc, [])
  | c :: r, acc => if c.isDigit then stointGo r (acc * 10 + (c.toNat - 48)) else (acc, c :: r)

/-- Modelled from the spec: stoint parses a leading non-negative decimal
integer; the returned rest plays the role of the end pointer. -/
def stoint (l : List Char) : Nat × List Char := stointGo l 0

/-- Whether stoint consumed at least one digit (the end pointer moved). -/
def stoConsumed (l : List Char) : Bool :=
  match l with
  | c :: _ => c.isDigit
  | [] => false

/-- TYPE_MAXIMUM (time_t): upper bound for sleep durations. -/
def timeMax : Nat := 2 ^ 63 - 1

/-- Modelled from the spec: parsing of a `sleep=` payload.  The spec says
"N parsed as a non-negative integer duration; invalid or out-of-range
input is a fatal configuration error", so failure covers a payload with
no leading digits, trailing garbage, or a value beyond TYPE_MAXIMUM
(time_t). -/
def parseSleep (l : List Char) : Option Nat :=
  let r := stoint l
  if stoConsumed l && r.2.isEmpty && decide (r.1 ≤ timeMax) then some r.1 else none

/-- COLUMNS fallback of getwidth: the value is used only when the whole
variable parses and is nonzero, otherwise 80. -/
def getwidthCols (env : Env) : Nat :=
  match env.columns with
  | some s =>
    let r := stoint s
    if r.2.isEmpty && decide (0 < r.1) then r.1 else 80
  | none => 80

/-- getwidth: the live terminal width — the window-size probe when it
reports a positive column count, else the COLUMNS override, else 80. -/
def getwidth (env : Env) : Nat :=
  match env.winsz with
  | some w => if 0 < w then w else getwidthCols env
  | none => getwidthCols env

/-- The quote-stripping step of copy_string_unquote: if the text begins
with a single or double quote, has length greater than 1, and ends with
the same character, the wrapping pair is removed. -/
def stripQuotes : List Char → List Char
  | [] => []
  | c :: rest =>
    if (c = dqC ∨ c = sqC) ∧ rest ≠ [] ∧ rest.getLast? = some c
    then rest.dropLast
    else c :: rest

/-- copy_string_unquote: strip one wrapping quote pair, then resolve
escape sequences (unquote_string, modelled via the environment). -/
def copy_string_unquote (env : Env) (l : List Char) : List Char :=
  env.unquoteEsc (stripQuotes l)

/-- Head of the remaining input, as the C scan pointer sees it: past the
end of the modelled memory there are only NUL bytes. -/
def peekC (l : List Char) : Char := l.headD nulC

/-- checkpoint_total_format: the default labels passed to the totals
formatter. -/
def checkpoint_total_format : List (List Char) := [['R'], ['W'], ['D']]

/-- Modelled from the spec: wordsplit with a comma delimiter (wordsplit
is outside src/); the `%T` argument "is split on commas". -/
def wsplitComma : List Char → List (List Char)
  | [] => [[]]
  | c :: r =>
    if c = ',' then [] :: wsplitComma r
    else
      match wsplitComma r with
      | w :: ws => (c :: w) :: ws
      | [] => [[c]]

/-- Effective `%T` labels and whether the too-many-words error fires:
with no argument the defaults; with more than three words the defaults
plus a reported error; otherwise the given words positionally override
the defaults, absent slots keeping the default labels (format_total_stats
is modelled from the spec as filling NULL slots with the defaults). -/
def totalLabels (arg : Option (List Char)) : List (List Char) × Bool :=
  match arg with
  | none => (checkpoint_total_format, false)
  | some a =>
    let ws := wsplitComma a
    if 3 < ws.length then (checkpoint_total_format, true)
    else (ws ++ checkpoint_total_format.drop ws.length, false)

/-- Target width of the `%*` directive: the live terminal width when no
argument was given; a present argument is parsed by stoint and replaced
by 80 when invalid (no digits consumed or trailing garbage). -/
def starWidth (env : Env) (arg : Option (List Char)) : Nat :=
  match arg with
  | none => getwidth env
  | some a =>
    let r := stoint a
    if stoConsumed a && r.2.isEmpty then r.1 else 80

/-- State of one format_checkpoint_string rendering: characters written,
running column count, non-fatal errors reported, and the terminal dirty
flag (tty_cleanup). -/
structure FmtSt where
  out : List Char
  len : Nat
  errs : List (List Char)
  dirty : Bool
deriving Repr, DecidableEq

/-- Append output, counting one column per character. -/
def emitN (st : FmtSt) (s : List Char) : FmtSt :=
  { st with out := st.out ++ s, len := st.len + s.length }

/-- Localized operation word for `%s`. -/
def opstrFor (dw : Bool) : List Char :=
  if dw then ['w', 'r', 'i', 't', 'e'] else ['r', 'e', 'a', 'd']

/-- Placeholder printed by `%t` when localtime fails. -/
def placeholderTime : List Char :=
  ['?', '?', '?', '?', '-', '?', '?', '-', '?', '?', ' ',
   '?', '?', ':', '?', '?', ':', '?', '?']

/-- The non-fatal error message reported for a `%T` argument with more
than three comma-separated words. -/
def tooManyMsg (a : List Char) : List Char :=
  ['t', 'o', 'o', ' ', 'm', 'a', 'n', 'y', ' ', 'w', 'o', 'r', 'd', 's', ' '] ++ a

/-- One directive dispatch of format_checkpoint_string's switch, for every
directive letter except `c` (which recurses and is handled by the scan
loop itself).  Unknown letters — including a NUL consumed as the letter —
take the literal-passthrough default branch. -/
def fmtStep (env : Env) (dw : Bool) (cpn : Nat) (arg : Option (List Char)) (d : Char)
    (st : FmtSt) : FmtSt :=
  if d = 'u' then emitN st (Nat.toDigits 10 cpn)
  else if d = 's' then emitN st (opstrFor dw)
  else if d = 'd' then emitN st (Nat.toDigits 10 env.duration)
  else if d = 'T' then
    let r := totalLabels arg
    let st1 := if r.2 then { st with errs := st.errs ++ [tooManyMsg (arg.getD [])] } else st
    emitN st1 (env.totalsOut r.1)
  else if d = 't' then
    emitN st (if env.localtimeOk then env.timeOut (arg.getD [pctC, 'c']) else placeholderTime)
  else if d = '*' then
    { st with out := st.out ++ List.replicate (starWidth env arg - st.len) ' ',
              len := max st.len (starWidth env arg) }
  else
    { st with out := st.out ++ [pctC, d], len := st.len + 2 }

/-- Result of scanning what follows a `%`: either `%{` with no closing
brace before the terminator (getarg fails, the pair is echoed and the
scan resumes right after the `{`), or a directive letter `d` with an
optional bracketed argument, the scan resuming `n` characters further. -/
inductive DirParse where
  | unclosed : DirParse
  | dir (arg : Option (List Char)) (d : Char) (n : Nat) : DirParse
deriving Repr, DecidableEq

/-- getarg plus the directive-letter read, operating on the characters
following the `%`: a bracketed argument runs to the first `}` located
before the terminating NUL (strchr), and the directive letter is the
character after it; without a leading `{` the letter is the very next
character (which may be the terminator itself). -/
def parseDir (l1 : List Char) : DirParse :=
  if peekC l1 = openBr then
    match ((l1.tail.takeWhile fun x => x ≠ nulC).findIdx? fun x => x = closeBr) with
    | some j => DirParse.dir (some (l1.tail.take j)) (peekC (l1.drop (j + 2))) (j + 3)
    | none => DirParse.unclosed
  else DirParse.dir none (peekC l1) 1

/-- def_format, the built-in default template
`%{%Y-%m-%d %H:%M:%S}t: %ds, %{read,wrote}T%*\r`. -/
def def_format : List Char :=
  [pctC, openBr, pctC, 'Y', '-', pctC, 'm', '-', pctC, 'd', ' ',
   pctC, 'H', ':', pctC, 'M', ':', pctC, 'S', closeBr, 't', ':', ' ',
   pctC, 'd', 's', ',', ' ',
   pctC, openBr, 'r', 'e', 'a', 'd', ',', 'w', 'r', 'o', 't', 'e', closeBr, 'T',
   pctC, '*', crC]

/-- The scan loop of format_checkpoint_string over the template memory.
`fuel` bounds the `%c` recursion depth (each `%c` renders def_format one
level deeper, exactly as the C recursion does); all other steps advance
through the character list.  The loop stops at the terminating NUL — or
at the end of the modelled memory, which reads as NUL bytes.  A literal
carriage return resets the column count and sets the dirty flag; `%c`
renders def_format in place and then adds the returned count to the
column count, as the C `len += format_checkpoint_string (...)` does. -/
def fmtScan (env : Env) (dw : Bool) (cpn : Nat) : Nat → FmtSt → List Char → Option FmtSt
  | _, st, [] => some st
  | fuel, st, c :: l1 =>
    if c = nulC then some st
    else if c = pctC then
      match parseDir l1 with
      | DirParse.unclosed =>
        fmtScan env dw cpn fuel
          { st with out := st.out ++ [pctC, openBr], len := st.len + 2 } (l1.drop 1)
      | DirParse.dir arg d n =>
        if d = 'c' then
          match fuel with
          | 0 => none
          | f + 1 =>
            match fmtScan env dw cpn f st def_format with
            | none => none
            | some st2 =>
              fmtScan env dw cpn (f + 1) { st2 with len := st.len + st2.len } (l1.drop n)
        else
          fmtScan env dw cpn fuel (fmtStep env dw cpn arg d st) (l1.drop n)
    else if c = crC then
      fmtScan env dw cpn fuel { st with out := st.out ++ [c], len := 0, dirty := true } l1
    else
      fmtScan env dw cpn fuel { st with out := st.out ++ [c], len := st.len + 1 } l1
termination_by fuel _ l => (fuel, l.length)
decreasing_by
  all_goals simp_wf
  all_goals
    first
      | exact Prod.Lex.left _ _ (Nat.lt_succ_self _)
      | exact Prod.Lex.right _ (Nat.lt_succ_self _)
      | exact Prod.Lex.right _ (by omega)

/-- Default message rendered by an echo action with no configured text. -/
def defaultMsg (dw : Bool) : List Char :=
  if dw then
    ['W', 'r', 'i', 't', 'e', ' ', 'c', 'h', 'e', 'c', 'k', 'p', 'o', 'i', 'n', 't', ' ',
     pctC, 'u']
  else
    ['R', 'e', 'a', 'd', ' ', 'c', 'h', 'e', 'c', 'k', 'p', 'o', 'i', 'n', 't', ' ',
     pctC, 'u']

/-- Fresh rendering state at a given starting column. -/
def initFmtSt (len0 : Nat) : FmtSt := { out := [], len := len0, errs := [], dirty := false }

/-- format_checkpoint_string: render a template (or, when none is
configured, the default checkpoint message) starting at column `len0`.
Recursion depth 2 suffices for every template, since `%c` only ever
renders def_format, which contains no `%c`. -/
def format_checkpoint_string (env : Env) (len0 : Nat) (input : Option (List Char))
    (dw : Bool) (cpn : Nat) : FmtSt :=
  (fmtScan env dw cpn 2 (initFmtSt len0) (input.getD (defaultMsg dw))).getD (initFmtSt len0)

/-- checkpoint_opcode. -/
inductive Opcode where
  | cop_dot
  | cop_bell
  | cop_echo
  | cop_ttyout
  | cop_sleep
  | cop_exec
  | cop_totals
  | cop_wait
deriving Repr, DecidableEq

/-- checkpoint_action: one compiled record.  alloc_action zero-fills the
record (xzalloc), so unused payload fields carry their zero values. -/
structure Action where
  opcode : Opcode
  time : Nat := 0
  command : Option (List Char) := none
  signal : Nat := 0
deriving Repr, DecidableEq

/-- State of the checkpoint system. -/
inductive CState where
  | CHKP_INIT
  | CHKP_COMPILE
  | CHKP_RUN
deriving Repr, DecidableEq

/-- The process-wide mutable state of the unit: the tick counter, the
configured interval (0 = checkpointing disabled), the compiled Program,
the lifecycle state, the accumulated signal set, the process signal mask
(sigprocmask state), and the cached terminal handle and dirty flag. -/
structure CkSt where
  checkpoint : Nat := 0
  checkpoint_option : Nat
  actions : List Action := []
  cstate : CState := CState.CHKP_INIT
  sigs : List Nat := []
  blocked : List Nat
  tty_open : Bool := false
  tty_cleanup : Bool := false
deriving Repr, DecidableEq

/-- Fatal configuration errors raised by checkpoint_compile_action
(paxfatal terminates the process), each naming the offending spec. -/
inductive Fatal where
  | unknownAction (s : List Char)
  | badTimeout (s : List Char)
deriving Repr, DecidableEq

/-- alloc_action: append a record at the tail of the Program. -/
def allocA (st : CkSt) (a : Action) : CkSt := { st with actions := st.actions ++ [a] }

/-- strncmp-based prefix test. -/
def hasPre : List Char → List Char → Bool
  | [], _ => true
  | _ :: _, [] => false
  | p :: ps, c :: cs => p = c && hasPre ps cs

/-- The entry bookkeeping of checkpoint_compile_action: the first call
finds the system uninitialized, empties the signal set and transitions to
CHKP_COMPILE. -/
def compileInit (st0 : CkSt) : CkSt :=
  if st0.cstate = CState.CHKP_INIT then
    { st0 with sigs := [], cstate := CState.CHKP_COMPILE }
  else st0

/-- The spec-string dispatch of checkpoint_compile_action: an unrecognized
spec or an invalid sleep duration is fatal. -/
def compileDispatch (env : Env) (str : List Char) (st : CkSt) : Except Fatal CkSt :=
  if str = ['.'] ∨ str = ['d', 'o', 't'] then
    Except.ok (allocA st { opcode := Opcode.cop_dot })
  else if str = ['b', 'e', 'l', 'l'] then
    Except.ok (allocA st { opcode := Opcode.cop_bell })
  else if str = ['e', 'c', 'h', 'o'] then
    Except.ok (allocA st { opcode := Opcode.cop_echo })
  else if hasPre ['e', 'c', 'h', 'o', '='] str then
    Except.ok (allocA st { opcode := Opcode.cop_echo,
                           command := some (copy_string_unquote env (str.drop 5)) })
  else if hasPre ['e', 'x', 'e', 'c', '='] str then
    Except.ok (allocA st { opcode := Opcode.cop_exec,
                           command := some (copy_string_unquote env (str.drop 5)) })
  else if hasPre ['t', 't', 'y', 'o', 'u', 't', '='] str then
    Except.ok (allocA st { opcode := Opcode.cop_ttyout,
                           command := some (copy_string_unquote env (str.drop 7)) })
  else if hasPre ['s', 'l', 'e', 'e', 'p', '='] str then
    match parseSleep (str.drop 6) with
    | some t => Except.ok (allocA st { opcode := Opcode.cop_sleep, time := t })
    | none => Except.error (Fatal.badTimeout str)
  else if str = ['t', 'o', 't', 'a', 'l', 's'] then
    Except.ok (allocA st { opcode := Opcode.cop_totals })
  else if hasPre ['w', 'a', 'i', 't', '='] str then
    let sg := env.decodeSignal (str.drop 5)
    let st1 := allocA st { opcode := Opcode.cop_wait, signal := sg }
    Except.ok { st1 with sigs := if sg ∈ st1.sigs then st1.sigs else st1.sigs ++ [sg] }
  else Except.error (Fatal.unknownAction str)

/-- checkpoint_compile_action: compile one action specification string. -/
def checkpoint_compile_action (env : Env) (str : List Char) (st0 : CkSt) :
    Except Fatal CkSt :=
  compileDispatch env str (compileInit st0)

/-- The Boolean guard deciding whether a spec string matches one of the
recognized action forms. -/
def recognizedSpec (str : List Char) : Bool :=
  str = ['.'] || str = ['d', 'o', 't'] || str = ['b', 'e', 'l', 'l'] ||
  str = ['e', 'c', 'h', 'o'] || hasPre ['e', 'c', 'h', 'o', '='] str ||
  hasPre ['e', 'x', 'e', 'c', '='] str || hasPre ['t', 't', 'y', 'o', 'u', 't', '='] str ||
  hasPre ['s', 'l', 'e', 'e', 'p', '='] str || str = ['t', 'o', 't', 'a', 'l', 's'] ||
  hasPre ['w', 'a', 'i', 't', '='] str

/-- The Action record an accepted spec string compiles to. -/
def specAction (env : Env) (str : List Char) : Action :=
  if str = ['.'] ∨ str = ['d', 'o', 't'] then { opcode := Opcode.cop_dot }
  else if str = ['b', 'e', 'l', 'l'] then { opcode := Opcode.cop_bell }
  else if str = ['e', 'c', 'h', 'o'] then { opcode := Opcode.cop_echo }
  else if hasPre ['e', 'c', 'h', 'o', '='] str then
    { opcode := Opcode.cop_echo, command := some (copy_string_unquote env (str.drop 5)) }
  else if hasPre ['e', 'x', 'e', 'c', '='] str then
    { opcode := Opcode.cop_exec, command := some (copy_string_unquote env (str.drop 5)) }
  else if hasPre ['t', 't', 'y', 'o', 'u', 't', '='] str then
    { opcode := Opcode.cop_ttyout, command := some (copy_string_unquote env (str.drop 7)) }
  else if hasPre ['s', 'l', 'e', 'e', 'p', '='] str then
    { opcode := Opcode.cop_sleep, time := (parseSleep (str.drop 6)).getD 0 }
  else if str = ['t', 'o', 't', 'a', 'l', 's'] then { opcode := Opcode.cop_totals }
  else { opcode := Opcode.cop_wait, signal := env.decodeSignal (str.drop 5) }

/-- Observable events of a run: the one sigprocmask SIG_BLOCK call (with
the set blocked and the resulting mask), and the execution of one action
(with the signal set and mask in force at that moment). -/
inductive Ev where
  | block (sigs : List Nat) (maskAfter : List Nat)
  | acted (a : Action) (sigs : List Nat) (mask : List Nat)
deriving Repr, DecidableEq

/-- checkpoint_finish_compile: when still uninitialized with checkpointing
requested and no compiled actions, synthesize the historical default
`echo` action; then, when compiling, block the accumulated signal set
process-wide, apply the default interval if none was set, and transition
to CHKP_RUN.  Returns the emitted block event, if any. -/
def checkpoint_finish_compile (env : Env) (st0 : CkSt) : CkSt × List Ev :=
  let st1 :=
    if st0.cstate = CState.CHKP_INIT ∧ st0.checkpoint_option ≠ 0 ∧ st0.actions = [] then
      match checkpoint_compile_action env ['e', 'c', 'h', 'o'] st0 with
      | Except.ok s => s
      | Except.error _ => st0
    else st0
  if st1.cstate = CState.CHKP_COMPILE then
    let blocked2 := st1.blocked ++ st1.sigs
    let opt2 := if st1.checkpoint_option = 0 then env.defaultCheckpoint
      else st1.checkpoint_option
    ({ st1 with blocked := blocked2, checkpoint_option := opt2, cstate := CState.CHKP_RUN },
     [Ev.block st1.sigs blocked2])
  else (st1, [])

/-- Lazy open of /dev/tty, cached for the process lifetime. -/
def tryTty (env : Env) (st : CkSt) : CkSt :=
  if st.tty_open then st
  else if env.ttyAvail then { st with tty_open := true } else st

/-- The state effect of executing one action during a traversal: bell and
ttyout lazily open the terminal; echo and ttyout render their template
through the Format Interpreter, whose carriage returns set the global
dirty flag; the remaining opcodes touch none of the modelled state. -/
def runOne (env : Env) (dw : Bool) (cpn : Nat) (st : CkSt) (a : Action) : CkSt :=
  match a.opcode with
  | Opcode.cop_bell => tryTty env st
  | Opcode.cop_echo =>
    let r := format_checkpoint_string env (env.progName.length + 2) a.command dw cpn
    { st with tty_cleanup := st.tty_cleanup || r.dirty }
  | Opcode.cop_ttyout =>
    let st1 := tryTty env st
    if st1.tty_open then
      let r := format_checkpoint_string env 0 a.command dw cpn
      { st1 with tty_cleanup := st1.tty_cleanup || r.dirty }
    else st1
  | _ => st

/-- run_checkpoint_actions: walk the Program in compiled order, executing
every action once; emits one `acted` event per action, recording the
signal set and mask in force. -/
def run_checkpoint_actions (env : Env) (dw : Bool) (st : CkSt) : CkSt × List Ev :=
  st.actions.foldl
    (fun (p : CkSt × List Ev) a =>
      (runOne env dw st.checkpoint p.1 a, p.2 ++ [Ev.acted a p.1.sigs p.1.blocked]))
    (st, [])

/-- Result of one executor trigger: the new state, how many full
traversals of the Program were performed, and the emitted events. -/
structure RunRes where
  st : CkSt
  traversals : Nat
  evs : List Ev
deriving Repr, DecidableEq

/-- checkpoint_run: when checkpointing is enabled, increment the tick
counter and, exactly when the incremented counter is a multiple of the
interval, traverse the Program once; when disabled, do nothing. -/
def checkpoint_run (env : Env) (dw : Bool) (st : CkSt) : RunRes :=
  if st.checkpoint_option ≠ 0 then
    let st1 := { st with checkpoint := st.checkpoint + 1 }
    if (st.checkpoint + 1) % st.checkpoint_option = 0 then
      let p := run_checkpoint_actions env dw st1
      { st := p.1, traversals := 1, evs := p.2 }
    else { st := st1, traversals := 0, evs := [] }
  else { st := st, traversals := 0, evs := [] }

/-- Compile a whole configuration, spec by spec, propagating the first
fatal error. -/
def compileAll (env : Env) (specs : List (List Char)) (st : CkSt) : Except Fatal CkSt :=
  match specs with
  | [] => Except.ok st
  | s :: rest =>
    match checkpoint_compile_action env s st with
    | Except.ok st1 => compileAll env rest st1
    | Except.error e => Except.error e

/-- Run one executor trigger per element of `dws` (the write flag of each
tick), collecting events. -/
def ticksRun (env : Env) (dws : List Bool) (st : CkSt) : CkSt × List Ev :=
  match dws with
  | [] => (st, [])
  | dw :: rest =>
    let p := checkpoint_run env dw st
    let q := ticksRun env rest p.st
    (q.1, p.evs ++ q.2)

/-- Initial process state: interval as configured, initial signal mask as
inherited, everything else zeroed. -/
def initSt (opt : Nat) (mask0 : List Nat) : CkSt :=
  { checkpoint_option := opt, blocked := mask0 }

/-- A valid call sequence of the exposed surface: compile_action zero or
more times, then finish_compile, then run_tick any number of times.
`none` when a compile was fatal. -/
def runSeq (env : Env) (opt : Nat) (mask0 : List Nat) (specs : List (List Char))
    (dws : List Bool) : Option (CkSt × List Ev) :=
  match compileAll env specs (initSt opt mask0) with
  | Except.error _ => none
  | Except.ok st =>
    let p := checkpoint_finish_compile env st
    let q := ticksRun env dws p.1
    some (q.1, p.2 ++ q.2)

/-- checkpoint_flush_actions: the cleanup pass over the Program — for
every ttyout action, when the terminal is open and the dirty flag is set,
write terminal-width-many spaces and a carriage return to it.  Returns
the characters written to the terminal. -/
def checkpoint_flush_actions (env : Env) (st : CkSt) : List Char :=
  st.actions.foldl
    (fun acc a =>
      match a.opcode with
      | Opcode.cop_ttyout =>
        if st.tty_open ∧ st.tty_cleanup then
          acc ++ (List.replicate (getwidth env) ' ' ++ [crC])
        else acc
      | _ => acc)
    []

/-- checkpoint_finish: when checkpointing was enabled, run the cleanup
pass and close the terminal handle if it was ever opened.  Returns the
characters written to the terminal. -/
def checkpoint_finish (env : Env) (st : CkSt) : CkSt × List Char :=
  if st.checkpoint_option ≠ 0 then
    let outp := checkpoint_flush_actions env st
    ((if st.tty_open then { st with tty_open := false } else st), outp)
  else (st, [])

/-- The wrapping condition tested by copy_string_unquote: the text starts
with a single or double quote, has length greater than 1, and ends with
the same character. -/
def quoteWrapped (l : List Char) : Bool :=
  match l with
  | c :: rest => decide ((c = dqC ∨ c = sqC) ∧ rest ≠ [] ∧ rest.getLast? = some c)
  | [] => false

/-- A concrete collaborator environment used to exercise the model on
closed inputs: the window-size probe reports 100 columns, escape
resolution is the identity, every signal name resolves to 10, and the
totals formatter joins its labels with colons. -/
def env0 : Env :=
  { winsz := some 100
    columns := none
    duration := 7
    totalsOut := fun ls => (ls.map fun l => l ++ [':']).flatten
    timeOut := fun f => f
    localtimeOk := true
    unquoteEsc := fun l => l
    decodeSignal := fun _ => 10
    ttyAvail := true
    defaultCheckpoint := 10
    progName := ['t', 'a', 'r'] }

/-- A concrete finished state used to exercise checkpoint_finish on
closed inputs: two ttyout actions, open terminal, dirty flag set. -/
def c8st : CkSt :=
  { checkpoint := 7
    checkpoint_option := 5
    actions := [{ opcode := Opcode.cop_ttyout, command := some ['x'] },
                { opcode := Opcode.cop_dot },
                { opcode := Opcode.cop_ttyout, command := some ['y'] }]
    cstate := CState.CHKP_RUN
    sigs := []
    blocked := []
    tty_open := true
    tty_cleanup := true }

/-- A concrete running state used to exercise checkpoint_run on closed
inputs: interval 5, four ticks already counted, a one-action Program. -/
def c1st : CkSt :=
  { checkpoint := 4
    checkpoint_option := 5
    actions := [{ opcode := Opcode.cop_dot }]
    cstate := CState.CHKP_RUN
    sigs := []
    blocked := []
    tty_open := false
    tty_cleanup := false }

end TarCheckpoint

namespace TarCheckpoint

theorem runOne_fields (env : Env) (dw : Bool) (cpn : Nat) (st : CkSt) (a : Action) :
    (runOne env dw cpn st a).checkpoint = st.checkpoint ∧
    (runOne env dw cpn st a).checkpoint_option = st.checkpoint_option ∧
    (runOne env dw cpn st a).actions = st.actions ∧
    (runOne env dw cpn st a).cstate = st.cstate ∧
    (runOne env dw cpn st a).sigs = st.sigs ∧
    (runOne env dw cpn st a).blocked = st.blocked := by
  cases h : a.opcode <;> simp only [runOne, h, tryTty] <;> (try split_ifs) <;> simp

theorem run_fold_aux (env : Env) (dw : Bool) (cpn : Nat) :
    ∀ (acts : List Action) (s : CkSt) (evs : List Ev),
      ((acts.foldl
          (fun (p : CkSt × List Ev) a =>
            (runOne env dw cpn p.1 a, p.2 ++ [Ev.acted a p.1.sigs p.1.blocked]))
          (s, evs)).1.checkpoint = s.checkpoint ∧
       (acts.foldl
          (fun (p : CkSt × List Ev) a =>
            (runOne env dw cpn p.1 a, p.2 ++ [Ev.acted a p.1.sigs p.1.blocked]))
          (s, evs)).1.checkpoint_option = s.checkpoint_option ∧
       (acts.foldl
          (fun (p : CkSt × List Ev) a =>
            (runOne env dw cpn p.1 a, p.2 ++ [Ev.acted a p.1.sigs p.1.blocked]))
          (s, evs)).1.actions = s.actions ∧
       (acts.foldl
          (fun (p : CkSt × List Ev) a =>
            (runOne env dw cpn p.1 a, p.2 ++ [Ev.acted a p.1.sigs p.1.blocked]))
          (s, evs)).1.cstate = s.cstate ∧
       (acts.foldl
          (fun (p : CkSt × List Ev) a =>
            (runOne env dw cpn p.1 a, p.2 ++ [Ev.acted a p.1.sigs p.1.blocked]))
          (s, evs)).1.sigs = s.sigs ∧
       (acts.foldl
          (fun (p : CkSt × List Ev) a =>
            (runOne env dw cpn p.1 a, p.2 ++ [Ev.acted a p.1.sigs p.1.blocked]))
          (s, evs)).1.blocked = s.blocked ∧
       (acts.foldl
          (fun (p : CkSt × List Ev) a =>
            (runOne env dw cpn p.1 a, p.2 ++ [Ev.acted a p.1.sigs p.1.blocked]))
          (s, evs)).2 = evs ++ (acts.map fun a => Ev.acted a s.sigs s.blocked)) := by
  intro acts
  induction acts with
  | nil => intro s evs; simp
  | cons a rest ih =>
    intro s evs
    obtain ⟨h1, h2, h3, h4, h5, h6⟩ := runOne_fields env dw cpn s a
    obtain ⟨g1, g2, g3, g4, g5, g6, g7⟩ :=
      ih (runOne env dw cpn s a) (evs ++ [Ev.acted a s.sigs s.blocked])
    simp only [List.foldl_cons, List.map_cons]
    refine ⟨?_, ?_, ?_, ?_, ?_, ?_, ?_⟩
    · rw [g1, h1]
    · rw [g2, h2]
    · rw [g3, h3]
    · rw [g4, h4]
    · rw [g5, h5]
    · rw [g6, h6]
    · rw [g7, h5, h6]
      simp

theorem run_actions_spec (env : Env) (dw : Bool) (st : CkSt) :
    (run_checkpoint_actions env dw st).1.checkpoint = st.checkpoint ∧
    (run_checkpoint_actions env dw st).1.checkpoint_option = st.checkpoint_option ∧
    (run_checkpoint_actions env dw st).1.actions = st.actions ∧
    (run_checkpoint_actions env dw st).1.cstate = st.cstate ∧
    (run_checkpoint_actions env dw st).1.sigs = st.sigs ∧
    (run_checkpoint_actions env dw st).1.blocked = st.blocked ∧
    (run_checkpoint_actions env dw st).2 =
      (st.actions.map fun a => Ev.acted a st.sigs st.blocked) := by
  have h := run_fold_aux env dw st.checkpoint st.actions st []
  simpa [run_checkpoint_actions] using h

/-- C1: with a configured interval N > 0 and checkpointing enabled, every
call to checkpoint_run increments the process-wide tick counter, and it
traverses the full Program exactly once precisely when the incremented
counter is a nonzero multiple of N (otherwise it performs no traversal
and emits no action events); with checkpointing disabled the call leaves
the state untouched and traverses nothing. -/
theorem C1_run_tick (env : Env) (dw : Bool) (st : CkSt) :
    (st.checkpoint_option ≠ 0 →
      ((checkpoint_run env dw st).st.checkpoint = st.checkpoint + 1 ∧
       ((checkpoint_run env dw st).traversals = 1 ↔
         ((st.checkpoint + 1) % st.checkpoint_option = 0 ∧ st.checkpoint + 1 ≠ 0)) ∧
       ((checkpoint_run env dw st).traversals = 1 →
         (checkpoint_run env dw st).evs =
           (st.actions.map fun a => Ev.acted a st.sigs st.blocked)) ∧
       ((checkpoint_run env dw st).traversals ≠ 1 →
         (checkpoint_run env dw st).traversals = 0 ∧
         (checkpoint_run env dw st).evs = []))) ∧
    (st.checkpoint_option = 0 →
      checkpoint_run env dw st = { st := st, traversals := 0, evs := [] }) := by
  constructor
  · intro hopt
    by_cases hm : (st.checkpoint + 1) % st.checkpoint_option = 0
    · have hs := run_actions_spec env dw { st with checkpoint := st.checkpoint + 1 }
      simp only [checkpoint_run, hopt, hm, if_true, ne_eq, not_false_iff, ite_true] at *
      refine ⟨hs.1, ?_, ?_, ?_⟩
      · simp [hm]
      · intro _
        exact hs.2.2.2.2.2.2
      · intro hc
        simp at hc
    · simp [checkpoint_run, hopt, hm]
  · intro hopt
    simp [checkpoint_run, hopt]

theorem C1_run_tick_w :
    c1st.checkpoint_option ≠ 0 ∧
    (checkpoint_run env0 true c1st).st.checkpoint = c1st.checkpoint + 1 ∧
    (checkpoint_run env0 true c1st).traversals = 1 := by
  refine ⟨by decide, ((C1_run_tick env0 true c1st).1 (by decide)).1, ?_⟩
  exact (((C1_run_tick env0 true c1st).1 (by decide)).2.1).mpr (by decide)

theorem compileInit_fields (st0 : CkSt) :
    (compileInit st0).actions = st0.actions ∧
    (compileInit st0).checkpoint = st0.checkpoint ∧
    (compileInit st0).checkpoint_option = st0.checkpoint_option ∧
    (compileInit st0).blocked = st0.blocked ∧
    (compileInit st0).tty_open = st0.tty_open ∧
    (compileInit st0).tty_cleanup = st0.tty_cleanup ∧
    (compileInit st0).cstate =
      (if st0.cstate = CState.CHKP_INIT then CState.CHKP_COMPILE else st0.cstate) := by
  unfold compileInit
  split_ifs <;> simp

set_option maxHeartbeats 1600000 in
theorem dispatch_ok_fields (env : Env) (str : List Char) (st st' : CkSt)
    (h : compileDispatch env str st = Except.ok st') :
    st'.actions = st.actions ++ [specAction env str] ∧
    st'.checkpoint = st.checkpoint ∧
    st'.checkpoint_option = st.checkpoint_option ∧
    st'.blocked = st.blocked ∧
    st'.tty_open = st.tty_open ∧
    st'.tty_cleanup = st.tty_cleanup ∧
    st'.cstate = st.cstate := by
  unfold compileDispatch at h
  unfold specAction
  split_ifs at h ⊢ <;>
    first
      | (simp only [Except.ok.injEq] at h
         subst h
         simp [allocA])
      | (split at h
         · simp only [Except.ok.injEq] at h
           subst h
           simp [allocA, *]
         · simp at h)

theorem compile_ok_fields (env : Env) (str : List Char) (st0 st' : CkSt)
    (h : checkpoint_compile_action env str st0 = Except.ok st') :
    st'.actions = st0.actions ++ [specAction env str] ∧
    st'.checkpoint = st0.checkpoint ∧
    st'.checkpoint_option = st0.checkpoint_option ∧
    st'.blocked = st0.blocked ∧
    st'.tty_open = st0.tty_open ∧
    st'.tty_cleanup = st0.tty_cleanup ∧
    st'.cstate =
      (if st0.cstate = CState.CHKP_INIT then CState.CHKP_COMPILE else st0.cstate) := by
  unfold checkpoint_compile_action at h
  obtain ⟨d1, d2, d3, d4, d5, d6, d7⟩ := dispatch_ok_fields env str (compileInit st0) st' h
  obtain ⟨i1, i2, i3, i4, i5, i6, i7⟩ := compileInit_fields st0
  exact ⟨by rw [d1, i1], by rw [d2, i2], by rw [d3, i3], by rw [d4, i4],
         by rw [d5, i5], by rw [d6, i6], by rw [d7, i7]⟩

theorem compileAll_ok (env : Env) :
    ∀ (specs : List (List Char)) (st0 st' : CkSt),
      compileAll env specs st0 = Except.ok st' →
      st'.actions = st0.actions ++ specs.map (specAction env) ∧
      st'.checkpoint = st0.checkpoint ∧
      st'.checkpoint_option = st0.checkpoint_option ∧
      st'.blocked = st0.blocked ∧
      st'.tty_open = st0.tty_open ∧
      st'.tty_cleanup = st0.tty_cleanup ∧
      st'.cstate = (if specs = [] then st0.cstate
        else if st0.cstate = CState.CHKP_INIT then CState.CHKP_COMPILE
        else st0.cstate) := by
  intro specs
  induction specs with
  | nil =>
    intro st0 st' h
    simp only [compileAll] at h
    injection h with h
    subst h
    simp
  | cons s rest ih =>
    intro st0 st' h
    simp only [compileAll] at h
    rcases hc : checkpoint_compile_action env s st0 with e | st1 <;> rw [hc] at h
    · simp at h
    · obtain ⟨a1, a2, a3, a4, a5, a6, a7⟩ := compile_ok_fields env s st0 st1 hc
      obtain ⟨b1, b2, b3, b4, b5, b6, b7⟩ := ih st1 st' h
      refine ⟨?_, by rw [b2, a2], by rw [b3, a3], by rw [b4, a4],
              by rw [b5, a5], by rw [b6, a6], ?_⟩
      · rw [b1, a1]
        simp
      · rw [b7, a7]
        rcases h0 : st0.cstate <;> simp

theorem finish_run_noop (env : Env) (st : CkSt) (h : st.cstate = CState.CHKP_RUN) :
    checkpoint_finish_compile env st = (st, []) := by
  unfold checkpoint_finish_compile
  simp [h]

theorem compile_echo_eval (env : Env) (st : CkSt) (h : st.cstate = CState.CHKP_INIT) :
    checkpoint_compile_action env ['e', 'c', 'h', 'o'] st =
      Except.ok { st with
                  sigs := []
                  cstate := CState.CHKP_COMPILE
                  actions := st.actions ++ [{ opcode := Opcode.cop_echo }] } := by
  unfold checkpoint_compile_action compileInit compileDispatch allocA
  rw [if_pos h]
  simp +decide

/-- C5: compiling n accepted specification strings and then calling
finish_compile leaves a Program of exactly those n action records, in
input order; when checkpointing is enabled and zero specs were compiled,
finish_compile instead synthesizes exactly one no-text echo action; and a
further finish_compile call in the resulting (Running) state changes
nothing and blocks nothing. -/
theorem C5_program (env : Env) (opt : Nat) (mask0 : List Nat)
    (specs : List (List Char)) (st' : CkSt)
    (h : compileAll env specs (initSt opt mask0) = Except.ok st') :
    ((specs ≠ [] ∨ opt = 0) →
       (checkpoint_finish_compile env st').1.actions = specs.map (specAction env)) ∧
    ((specs = [] ∧ opt ≠ 0) →
       (checkpoint_finish_compile env st').1.actions = [{ opcode := Opcode.cop_echo }]) ∧
    checkpoint_finish_compile env (checkpoint_finish_compile env st').1 =
      ((checkpoint_finish_compile env st').1, []) := by
  obtain ⟨a1, a2, a3, a4, a5, a6, a7⟩ := compileAll_ok env specs (initSt opt mask0) st' h
  simp only [initSt] at a1 a3 a7
  by_cases hs : specs = []
  · subst hs
    simp only [List.map_nil, List.append_nil] at a1
    have a7' : st'.cstate = CState.CHKP_INIT := by simpa using a7
    by_cases ho : opt = 0
    · have hfin : checkpoint_finish_compile env st' = (st', []) := by
        unfold checkpoint_finish_compile
        simp [a7', a3, ho]
      refine ⟨fun _ => by rw [hfin]; simp [a1], fun hx => absurd ho hx.2, ?_⟩
      rw [hfin]
      simp [hfin]
    · have hech := compile_echo_eval env st' a7'
      have hfin : (checkpoint_finish_compile env st').1 =
          { st' with
            sigs := []
            cstate := CState.CHKP_RUN
            actions := [{ opcode := Opcode.cop_echo }] } := by
        unfold checkpoint_finish_compile
        rw [hech]
        simp [a7', a3, ho, a1]
      refine ⟨fun hx => hx.elim (fun h1 => absurd rfl h1) (fun h2 => absurd h2 ho),
              fun _ => by rw [hfin], ?_⟩
      have hrun : (checkpoint_finish_compile env st').1.cstate = CState.CHKP_RUN := by
        rw [hfin]
      rw [finish_run_noop env _ hrun]
  · have hcst : st'.cstate = CState.CHKP_COMPILE := by
      rw [a7]
      simp [hs]
    have hact : st'.actions = specs.map (specAction env) := by
      rw [a1]
      simp
    have hfin : (checkpoint_finish_compile env st').1 =
        { st' with
          blocked := st'.blocked ++ st'.sigs
          cstate := CState.CHKP_RUN
          checkpoint_option := (if st'.checkpoint_option = 0 then env.defaultCheckpoint
            else st'.checkpoint_option) } := by
      unfold checkpoint_finish_compile
      simp [hcst]
    refine ⟨fun _ => by rw [hfin]; simpa using hact, fun hx => absurd hx.1 hs, ?_⟩
    have hrun : (checkpoint_finish_compile env st').1.cstate = CState.CHKP_RUN := by
      rw [hfin]
    rw [finish_run_noop env _ hrun]

theorem C5_program_w :
    ∃ st', compileAll env0 [['d', 'o', 't'], ['b', 'e', 'l', 'l']] (initSt 3 []) =
        Except.ok st' ∧
      (checkpoint_finish_compile env0 st').1.actions =
        [['d', 'o', 't'], ['b', 'e', 'l', 'l']].map (specAction env0) ∧
      (checkpoint_finish_compile env0 st').1.actions.length = 2 := by
  refine ⟨_, rfl, ?_, ?_⟩
  · exact (C5_program env0 3 [] [['d', 'o', 't'], ['b', 'e', 'l', 'l']] _ rfl).1
      (Or.inl (by decide))
  · rw [(C5_program env0 3 [] [['d', 'o', 't'], ['b', 'e', 'l', 'l']] _ rfl).1
      (Or.inl (by decide))]
    decide

theorem hasPre_head (p : Char) (ps l : List Char) (h : hasPre (p :: ps) l = true) :
    l.head? = some p := by
  cases l with
  | nil => simp [hasPre] at h
  | cons c cs =>
    simp only [hasPre, Bool.and_eq_true, decide_eq_true_eq] at h
    simp [h.1]

/-- C7: checkpoint_compile_action raises a fatal (process-terminating)
configuration error exactly when the specification string is unrecognized
or a `sleep=` payload fails to parse as an in-range non-negative integer
duration, and every fatal error names the offending string; all other
listed spec forms are accepted. -/
theorem hasPre_false_of_head (p q : Char) (ps l : List Char) (h : l.head? = some q)
    (hne : q ≠ p) : hasPre (p :: ps) l = false := by
  cases l with
  | nil => simp at h
  | cons c cs =>
    simp only [List.head?_cons, Option.some.injEq] at h
    subst h
    simp only [hasPre, Bool.and_eq_false_iff, decide_eq_false_iff_not]
    exact Or.inl fun hp => hne hp.symm

theorem okCaseAux (env : Env) (st : CkSt) (s : List Char)
    (hok : ∃ res, checkpoint_compile_action env s st = Except.ok res)
    (hrec : recognizedSpec s = true)
    (hside : hasPre ['s', 'l', 'e', 'e', 'p', '='] s = false ∨
      parseSleep (s.drop 6) ≠ none) :
    ((∃ e, checkpoint_compile_action env s st = Except.error e) ↔
      (recognizedSpec s = false ∨
        (hasPre ['s', 'l', 'e', 'e', 'p', '='] s = true ∧ parseSleep (s.drop 6) = none))) ∧
    (∀ e, checkpoint_compile_action env s st = Except.error e →
      e = Fatal.unknownAction s ∨ e = Fatal.badTimeout s) := by
  obtain ⟨res, hok⟩ := hok
  refine ⟨⟨fun ⟨e, he⟩ => by rw [hok] at he; simp at he, fun hr => ?_⟩,
          fun e he => by rw [hok] at he; simp at he⟩
  rcases hr with hr | ⟨hsl, hnone⟩
  · rw [hrec] at hr
    simp at hr
  · rcases hside with hx | hx
    · rw [hx] at hsl
      simp at hsl
    · exact absurd hnone hx

/-- C7: checkpoint_compile_action raises a fatal (process-terminating)
configuration error exactly when the specification string is unrecognized
or a `sleep=` payload fails to parse as an in-range non-negative integer
duration, and every fatal error names the offending string; all other
listed spec forms are accepted. -/
theorem C7_fatal (env : Env) (st : CkSt) (s : List Char) :
    ((∃ e, checkpoint_compile_action env s st = Except.error e) ↔
      (recognizedSpec s = false ∨
        (hasPre ['s', 'l', 'e', 'e', 'p', '='] s = true ∧ parseSleep (s.drop 6) = none))) ∧
    (∀ e, checkpoint_compile_action env s st = Except.error e →
      e = Fatal.unknownAction s ∨ e = Fatal.badTimeout s) := by
  by_cases h1 : s = ['.'] ∨ s = ['d', 'o', 't']
  · refine okCaseAux env st s ?_ ?_ (Or.inl ?_)
    · exact ⟨_, by unfold checkpoint_compile_action compileDispatch; rw [if_pos h1]⟩
    · rcases h1 with h | h <;> subst h <;> decide
    · rcases h1 with h | h <;> subst h <;> decide
  by_cases h2 : s = ['b', 'e', 'l', 'l']
  · refine okCaseAux env st s ?_ ?_ (Or.inl ?_)
    · unfold checkpoint_compile_action compileDispatch
      rw [if_neg h1, if_pos h2]
      exact ⟨_, rfl⟩
    · subst h2; decide
    · subst h2; decide
  by_cases h3 : s = ['e', 'c', 'h', 'o']
  · refine okCaseAux env st s ?_ ?_ (Or.inl ?_)
    · unfold checkpoint_compile_action compileDispatch
      rw [if_neg h1, if_neg h2, if_pos h3]
      exact ⟨_, rfl⟩
    · subst h3; decide
    · subst h3; decide
  by_cases h4 : hasPre ['e', 'c', 'h', 'o', '='] s = true
  · refine okCaseAux env st s ?_ ?_ (Or.inl ?_)
    · unfold checkpoint_compile_action compileDispatch
      rw [if_neg h1, if_neg h2, if_neg h3, if_pos h4]
      exact ⟨_, rfl⟩
    · simp [recognizedSpec, h4]
    · exact hasPre_false_of_head _ _ _ _ (hasPre_head _ _ _ h4) (by decide)
  by_cases h5 : hasPre ['e', 'x', 'e', 'c', '='] s = true
  · refine okCaseAux env st s ?_ ?_ (Or.inl ?_)
    · unfold checkpoint_compile_action compileDispatch
      rw [if_neg h1, if_neg h2, if_neg h3, if_neg h4, if_pos h5]
      exact ⟨_, rfl⟩
    · simp [recognizedSpec, h5]
    · exact hasPre_false_of_head _ _ _ _ (hasPre_head _ _ _ h5) (by decide)
  by_cases h6 : hasPre ['t', 't', 'y', 'o', 'u', 't', '='] s = true
  · refine okCaseAux env st s ?_ ?_ (Or.inl ?_)
    · unfold checkpoint_compile_action compileDispatch
      rw [if_neg h1, if_neg h2, if_neg h3, if_neg h4, if_neg h5, if_pos h6]
      exact ⟨_, rfl⟩
    · simp [recognizedSpec, h6]
    · exact hasPre_false_of_head _ _ _ _ (hasPre_head _ _ _ h6) (by decide)
  by_cases h7 : hasPre ['s', 'l', 'e', 'e', 'p', '='] s = true
  · by_cases hps : parseSleep (s.drop 6) = none
    · have herr : checkpoint_compile_action env s st = Except.error (Fatal.badTimeout s) := by
        unfold checkpoint_compile_action compileDispatch
        rw [if_neg h1, if_neg h2, if_neg h3, if_neg h4, if_neg h5, if_neg h6, if_pos h7, hps]
      refine ⟨iff_of_true ⟨Fatal.badTimeout s, herr⟩ (Or.inr ⟨h7, hps⟩), fun e he => ?_⟩
      rw [herr] at he
      right
      simpa using he.symm
    · obtain ⟨t, ht⟩ := Option.ne_none_iff_exists'.mp hps
      refine okCaseAux env st s ?_ ?_ (Or.inr hps)
      · unfold checkpoint_compile_action compileDispatch
        rw [if_neg h1, if_neg h2, if_neg h3, if_neg h4, if_neg h5, if_neg h6, if_pos h7, ht]
        exact ⟨_, rfl⟩
      · simp [recognizedSpec, h7]
  by_cases h8 : s = ['t', 'o', 't', 'a', 'l', 's']
  · refine okCaseAux env st s ?_ ?_ (Or.inl ?_)
    · unfold checkpoint_compile_action compileDispatch
      rw [if_neg h1, if_neg h2, if_neg h3, if_neg h4, if_neg h5, if_neg h6,
                      if_neg h7, if_pos h8]
      exact ⟨_, rfl⟩
    · subst h8; decide
    · subst h8; decide
  by_cases h9 : hasPre ['w', 'a', 'i', 't', '='] s = true
  · refine okCaseAux env st s ?_ ?_ (Or.inl ?_)
    · unfold checkpoint_compile_action compileDispatch
      rw [if_neg h1, if_neg h2, if_neg h3, if_neg h4, if_neg h5, if_neg h6,
                      if_neg h7, if_neg h8, if_pos h9]
      exact ⟨_, rfl⟩
    · simp [recognizedSpec, h9]
    · exact hasPre_false_of_head _ _ _ _ (hasPre_head _ _ _ h9) (by decide)
  have herr : checkpoint_compile_action env s st = Except.error (Fatal.unknownAction s) := by
    unfold checkpoint_compile_action compileDispatch
    rw [if_neg h1, if_neg h2, if_neg h3, if_neg h4, if_neg h5, if_neg h6, if_neg h7,
        if_neg h8, if_neg h9]
  refine ⟨iff_of_true ⟨Fatal.unknownAction s, herr⟩ (Or.inl ?_), fun e he => ?_⟩
  · rw [not_or] at h1
    simp only [recognizedSpec, Bool.or_eq_false_iff, decide_eq_false_iff_not]
    refine ⟨⟨⟨⟨⟨⟨⟨⟨⟨h1.1, h1.2⟩, h2⟩, h3⟩, ?_⟩, ?_⟩, ?_⟩, ?_⟩, h8⟩, ?_⟩ <;> simp_all
  · rw [herr] at he
    left
    simpa using he.symm

theorem C7_fatal_w :
    (∃ e, checkpoint_compile_action env0 ['s', 'l', 'e', 'e', 'p', '=', 'x'] (initSt 0 []) =
       Except.error e) ∧
    (∃ e, checkpoint_compile_action env0 ['n', 'o', 'p', 'e'] (initSt 0 []) =
       Except.error e) ∧
    ¬(∃ e, checkpoint_compile_action env0 ['s', 'l', 'e', 'e', 'p', '=', '4'] (initSt 0 []) =
       Except.error e) := by
  refine ⟨?_, ?_, ?_⟩
  · exact (C7_fatal env0 (initSt 0 []) ['s', 'l', 'e', 'e', 'p', '=', 'x']).1.mpr
      (Or.inr ⟨by decide, by decide⟩)
  · exact (C7_fatal env0 (initSt 0 []) ['n', 'o', 'p', 'e']).1.mpr (Or.inl (by decide))
  · intro hx
    have hz := (C7_fatal env0 (initSt 0 []) ['s', 'l', 'e', 'e', 'p', '=', '4']).1.mp hx
    revert hz
    decide

/-- C6: the unquoting applied to echo=/exec=/ttyout= payloads strips
exactly one wrapping quote pair — when the text has length greater than
one and begins and ends with the same single or double quote, exactly
that pair (two characters) is removed before escape-sequence resolution —
and it leaves any non-wrapped string unchanged, hence is idempotent on
already-unquoted strings. -/
theorem C6_unquote :
    (∀ (c : Char) (rest : List Char), quoteWrapped (c :: rest) = true →
       stripQuotes (c :: rest) = rest.dropLast ∧
       (c :: rest).length = rest.dropLast.length + 2) ∧
    (∀ l, quoteWrapped l = false → stripQuotes l = l) ∧
    (∀ l, quoteWrapped l = false → stripQuotes (stripQuotes l) = stripQuotes l) ∧
    (∀ (env : Env) (l : List Char),
       copy_string_unquote env l = env.unquoteEsc (stripQuotes l)) := by
  have hwrap : ∀ (c : Char) (rest : List Char), quoteWrapped (c :: rest) = true ↔
      ((c = dqC ∨ c = sqC) ∧ rest ≠ [] ∧ rest.getLast? = some c) := by
    intro c rest
    simp [quoteWrapped]
  have hid : ∀ l, quoteWrapped l = false → stripQuotes l = l := by
    intro l hl
    cases l with
    | nil => rfl
    | cons c rest =>
      simp only [stripQuotes]
      rw [if_neg]
      intro hc
      rw [(hwrap c rest).symm.mp hc] at hl
      simp at hl
  refine ⟨?_, hid, fun l hl => by rw [hid l hl, hid l hl], fun env l => rfl⟩
  intro c rest hw
  rw [hwrap c rest] at hw
  constructor
  · simp only [stripQuotes]
    rw [if_pos hw]
  · have hne : rest ≠ [] := hw.2.1
    have hlen : rest.dropLast.length = rest.length - 1 := by
      simp [List.length_dropLast]
    have h1 : 1 ≤ rest.length := by
      cases rest with
      | nil => exact absurd rfl hne
      | cons a as => simp
    rw [List.length_cons, hlen]
    omega

theorem C6_unquote_w :
    quoteWrapped [sqC, 'i', 't', sqC, sqC, 's', sqC] = true ∧
    stripQuotes [sqC, 'i', 't', sqC, sqC, 's', sqC] = ['i', 't', sqC, sqC, 's'] ∧
    quoteWrapped ['i', 't', sqC, sqC, 's'] = false ∧
    stripQuotes ['i', 't', sqC, sqC, 's'] = ['i', 't', sqC, sqC, 's'] ∧
    stripQuotes (stripQuotes ['h', 'e', 'l', 'l', 'o']) = stripQuotes ['h', 'e', 'l', 'l', 'o'] := by
  refine ⟨by decide, ?_, by decide, ?_, ?_⟩
  · have hs := (C6_unquote.1 sqC ['i', 't', sqC, sqC, 's', sqC] (by decide)).1
    simpa using hs
  · exact C6_unquote.2.1 ['i', 't', sqC, sqC, 's'] (by decide)
  · exact C6_unquote.2.2.1 ['h', 'e', 'l', 'l', 'o'] (by decide)

theorem flush_fold (env : Env) (st : CkSt) :
    ∀ (acts : List Action) (acc : List Char),
      (acts.foldl
        (fun acc a =>
          match a.opcode with
          | Opcode.cop_ttyout =>
            if st.tty_open ∧ st.tty_cleanup then
              acc ++ (List.replicate (getwidth env) ' ' ++ [crC])
            else acc
          | _ => acc) acc) =
      acc ++ (acts.map fun a =>
        if a.opcode = Opcode.cop_ttyout ∧ st.tty_open ∧ st.tty_cleanup then
          List.replicate (getwidth env) ' ' ++ [crC]
        else []).flatten := by
  intro acts
  induction acts with
  | nil => intro acc; simp
  | cons a rest ih =>
    intro acc
    rw [List.foldl_cons, ih]
    cases ha : a.opcode <;> by_cases hoc : st.tty_open = true ∧ st.tty_cleanup = true <;>
      simp [ha, hoc]

/-- C8: when checkpointing was enabled, checkpoint_finish runs the cleanup
pass: it visits every action and, for each ttyout action, writes
terminal-width-many spaces followed by one carriage return to the
terminal exactly when the terminal is open and the dirty flag is set;
afterwards the terminal handle is closed.  Moreover a raw carriage return
rendered by the Format Interpreter is what sets the dirty flag, also
resetting the running column count to zero. -/
theorem C8_finish (env : Env) (st : CkSt) (h : st.checkpoint_option ≠ 0) :
    (checkpoint_finish env st).2 =
      (st.actions.map fun a =>
        if a.opcode = Opcode.cop_ttyout ∧ st.tty_open ∧ st.tty_cleanup then
          List.replicate (getwidth env) ' ' ++ [crC]
        else []).flatten ∧
    (checkpoint_finish env st).1.tty_open = false ∧
    (∀ (dw : Bool) (cpn f : Nat) (s : FmtSt) (rest : List Char),
      fmtScan env dw cpn f s (crC :: rest) =
        fmtScan env dw cpn f { s with out := s.out ++ [crC], len := 0, dirty := true } rest) := by
  refine ⟨?_, ?_, ?_⟩
  · unfold checkpoint_finish checkpoint_flush_actions
    rw [if_pos h]
    simpa using flush_fold env st st.actions []
  · unfold checkpoint_finish
    rw [if_pos h]
    by_cases ht : st.tty_open
    · simp [ht]
    · simp [ht]
  · intro dw cpn f s rest
    rw [fmtScan]
    simp +decide [crC, nulC, pctC]

theorem C8_finish_w :
    c8st.checkpoint_option ≠ 0 ∧
    (checkpoint_finish env0 c8st).2 =
      (c8st.actions.map fun a =>
        if a.opcode = Opcode.cop_ttyout ∧ c8st.tty_open ∧ c8st.tty_cleanup then
          List.replicate (getwidth env0) ' ' ++ [crC]
        else []).flatten ∧
    (checkpoint_finish env0 c8st).1.tty_open = false := by
  refine ⟨by decide, (C8_finish env0 c8st (by decide)).1, (C8_finish env0 c8st (by decide)).2.1⟩

theorem peekC_cases (l : List Char) : peekC l = nulC ∨ peekC l ∈ l := by
  cases l with
  | nil => exact Or.inl rfl
  | cons c cs => exact Or.inr (by simp [peekC])

theorem parseDir_letter (l1 : List Char) (arg : Option (List Char)) (d : Char) (nn : Nat)
    (h : parseDir l1 = DirParse.dir arg d nn) : d = nulC ∨ d ∈ l1 := by
  unfold parseDir at h
  by_cases hbr : peekC l1 = openBr
  · rw [if_pos hbr] at h
    split at h
    · rename_i j hj
      injection h with h1 h2 h3
      subst h2
      rcases peekC_cases (l1.drop (j + 2)) with hx | hx
      · exact Or.inl hx
      · exact Or.inr (List.drop_subset _ _ hx)
    · exact absurd h (by simp)
  · rw [if_neg hbr] at h
    injection h with h1 h2 h3
    subst h2
    exact peekC_cases l1

theorem scan_noc (env : Env) (dw : Bool) (cpn : Nat) :
    ∀ (n : Nat) (l : List Char), l.length ≤ n → 'c' ∉ l →
      (∀ (f : Nat) (st : FmtSt), fmtScan env dw cpn (f + 1) st l = fmtScan env dw cpn 1 st l) ∧
      (∀ st : FmtSt, (fmtScan env dw cpn 1 st l).isSome = true) := by
  intro n
  induction n with
  | zero =>
    intro l hl _
    have hnil : l = [] := List.eq_nil_of_length_eq_zero (Nat.le_zero.mp hl)
    subst hnil
    exact ⟨fun f st => by rw [fmtScan, fmtScan], fun st => by rw [fmtScan]; rfl⟩
  | succ n ih =>
    intro l hl hc
    match l with
    | [] => exact ⟨fun f st => by rw [fmtScan, fmtScan], fun st => by rw [fmtScan]; rfl⟩
    | c :: l1 =>
      have hlen1 : l1.length ≤ n := by simpa using hl
      have hc1 : 'c' ∉ l1 := fun hx => hc (List.mem_cons_of_mem _ hx)
      by_cases hn : c = nulC
      · exact ⟨fun f st => by rw [fmtScan, fmtScan]; simp only [if_pos hn],
               fun st => by rw [fmtScan]; simp only [if_pos hn]; rfl⟩
      by_cases hp : c = pctC
      · rcases hpd : parseDir l1 with _ | ⟨arg, d, nn⟩
        · have hrec := ih (l1.drop 1) (by simp only [List.length_drop]; omega)
            (fun hx => hc1 (List.drop_subset _ _ hx))
          constructor
          · intro f st
            rw [fmtScan, fmtScan]
            simp only [if_neg hn, if_pos hp, hpd]
            exact hrec.1 f _
          · intro st
            rw [fmtScan]
            simp only [if_neg hn, if_pos hp, hpd]
            exact hrec.2 _
        · have hd : d ≠ 'c' := by
            rcases parseDir_letter l1 arg d nn hpd with hx | hx
            · rw [hx]; decide
            · exact fun he => hc1 (he ▸ hx)
          have hrec := ih (l1.drop nn) (by simp only [List.length_drop]; omega)
            (fun hx => hc1 (List.drop_subset _ _ hx))
          constructor
          · intro f st
            rw [fmtScan, fmtScan]
            simp only [if_neg hn, if_pos hp, hpd, if_neg hd]
            exact hrec.1 f _
          · intro st
            rw [fmtScan]
            simp only [if_neg hn, if_pos hp, hpd, if_neg hd]
            exact hrec.2 _
      by_cases hr : c = crC
      · have hrec := ih l1 hlen1 hc1
        constructor
        · intro f st
          rw [fmtScan, fmtScan]
          simp only [if_neg hn, if_neg hp, if_pos hr]
          exact hrec.1 f _
        · intro st
          rw [fmtScan]
          simp only [if_neg hn, if_neg hp, if_pos hr]
          exact hrec.2 _
      · have hrec := ih l1 hlen1 hc1
        constructor
        · intro f st
          rw [fmtScan, fmtScan]
          simp only [if_neg hn, if_neg hp, if_neg hr]
          exact hrec.1 f _
        · intro st
          rw [fmtScan]
          simp only [if_neg hn, if_neg hp, if_neg hr]
          exact hrec.2 _

theorem def_format_noc : 'c' ∉ def_format := by decide

theorem scan_stab (env : Env) (dw : Bool) (cpn : Nat) :
    ∀ (n : Nat) (l : List Char), l.length ≤ n →
      (∀ (f : Nat) (st : FmtSt), fmtScan env dw cpn (f + 2) st l = fmtScan env dw cpn 2 st l) ∧
      (∀ st : FmtSt, (fmtScan env dw cpn 2 st l).isSome = true) := by
  intro n
  induction n with
  | zero =>
    intro l hl
    have hnil : l = [] := List.eq_nil_of_length_eq_zero (Nat.le_zero.mp hl)
    subst hnil
    exact ⟨fun f st => by rw [fmtScan, fmtScan], fun st => by rw [fmtScan]; rfl⟩
  | succ n ih =>
    intro l hl
    match l with
    | [] => exact ⟨fun f st => by rw [fmtScan, fmtScan], fun st => by rw [fmtScan]; rfl⟩
    | c :: l1 =>
      have hlen1 : l1.length ≤ n := by simpa using hl
      by_cases hn : c = nulC
      · exact ⟨fun f st => by rw [fmtScan, fmtScan]; simp only [if_pos hn],
               fun st => by rw [fmtScan]; simp only [if_pos hn]; rfl⟩
      by_cases hp : c = pctC
      · rcases hpd : parseDir l1 with _ | ⟨arg, d, nn⟩
        · have hrec := ih (l1.drop 1) (by simp only [List.length_drop]; omega)
          constructor
          · intro f st
            rw [fmtScan, fmtScan]
            simp only [if_neg hn, if_pos hp, hpd]
            exact hrec.1 f _
          · intro st
            rw [fmtScan]
            simp only [if_neg hn, if_pos hp, hpd]
            exact hrec.2 _
        · have hrec := ih (l1.drop nn) (by simp only [List.length_drop]; omega)
          by_cases hd : d = 'c'
          · have hnocd := scan_noc env dw cpn def_format.length def_format le_rfl def_format_noc
            constructor
            · intro f st
              rw [fmtScan, fmtScan]
              simp only [if_neg hn, if_pos hp, hpd, if_pos hd]
              rw [hnocd.1 f st]
              rcases hsome : fmtScan env dw cpn 1 st def_format with _ | st2 <;>
                simp only [hsome]
              exact hrec.1 f _
            · intro st
              rw [fmtScan]
              simp only [if_neg hn, if_pos hp, hpd, if_pos hd]
              rcases hsome : fmtScan env dw cpn 1 st def_format with _ | st2 <;>
                simp only [hsome]
              · have hz := hnocd.2 st
                rw [hsome] at hz
                simp at hz
              · exact hrec.2 _
          · constructor
            · intro f st
              rw [fmtScan, fmtScan]
              simp only [if_neg hn, if_pos hp, hpd, if_neg hd]
              exact hrec.1 f _
            · intro st
              rw [fmtScan]
              simp only [if_neg hn, if_pos hp, hpd, if_neg hd]
              exact hrec.2 _
      by_cases hr : c = crC
      · have hrec := ih l1 hlen1
        constructor
        · intro f st
          rw [fmtScan, fmtScan]
          simp only [if_neg hn, if_neg hp, if_pos hr]
          exact hrec.1 f _
        · intro st
          rw [fmtScan]
          simp only [if_neg hn, if_neg hp, if_pos hr]
          exact hrec.2 _
      · have hrec := ih l1 hlen1
        constructor
        · intro f st
          rw [fmtScan, fmtScan]
          simp only [if_neg hn, if_neg hp, if_neg hr]
          exact hrec.1 f _
        · intro st
          rw [fmtScan]
          simp only [if_neg hn, if_neg hp, if_neg hr]
          exact hrec.2 _

/-- C9: rendering any template terminates — the `%c` directive only ever
recurses into the fixed built-in default template def_format, which
contains no `%c`, so recursion depth 2 suffices for every template: the
scan's result is stable for every fuel of at least 2 and is always
defined at fuel 2. -/
theorem C9_termination (env : Env) (dw : Bool) (cpn : Nat) :
    ('c' ∉ def_format) ∧
    (∀ (l : List Char) (k : Nat) (st : FmtSt),
      fmtScan env dw cpn (k + 2) st l = fmtScan env dw cpn 2 st l) ∧
    (∀ (l : List Char) (st : FmtSt), (fmtScan env dw cpn 2 st l).isSome = true) := by
  refine ⟨def_format_noc, fun l k st => ?_, fun l st => ?_⟩
  · exact (scan_stab env dw cpn l.length l le_rfl).1 k st
  · exact (scan_stab env dw cpn l.length l le_rfl).2 st

theorem findClose_go (k : List Char) :
    ∀ (a : List Char) (i : Nat), closeBr ∉ a → nulC ∉ a →
      List.findIdx? (fun x => x = closeBr)
        (List.takeWhile (fun x => x ≠ nulC) (a ++ closeBr :: k)) i =
        some (a.length + i) := by
  intro a
  induction a with
  | nil =>
    intro i _ _
    simp only [List.nil_append, List.takeWhile_cons, List.length_nil]
    rw [if_pos (by decide), List.findIdx?_cons, if_pos (by decide)]
    simp
  | cons c cs ih =>
    intro i ha1 ha2
    have hc1 : c ≠ closeBr := fun h => ha1 (h ▸ List.mem_cons_self c cs)
    have hc2 : c ≠ nulC := fun h => ha2 (h ▸ List.mem_cons_self c cs)
    have ih2 := ih (i + 1) (fun hx => ha1 (List.mem_cons_of_mem _ hx))
      (fun hx => ha2 (List.mem_cons_of_mem _ hx))
    simp only [List.cons_append, List.takeWhile_cons]
    rw [if_pos (by simp [hc2]), List.findIdx?_cons, if_neg (by simp [hc1]), ih2]
    simp only [List.length_cons, Option.some.injEq]
    omega

theorem findClose_aux (a k : List Char) (ha1 : closeBr ∉ a) (ha2 : nulC ∉ a) :
    (((a ++ closeBr :: k).takeWhile fun x => x ≠ nulC).findIdx? fun x => x = closeBr) =
      some a.length := by
  have h := findClose_go k a 0 ha1 ha2
  simpa using h

theorem drop_past_close (a k : List Char) :
    (openBr :: (a ++ closeBr :: k)).drop (a.length + 2) = k := by
  rw [show a.length + 2 = (a.length + 1) + 1 from rfl, List.drop_succ_cons]
  induction a with
  | nil => simp
  | cons c cs ih =>
    rw [List.length_cons, List.cons_append, List.drop_succ_cons]
    exact ih

theorem drop_past_letter (a k : List Char) :
    (openBr :: (a ++ closeBr :: k)).drop (a.length + 3) = k.drop 1 := by
  rw [show a.length + 3 = (a.length + 2) + 1 from rfl]
  have h := drop_past_close a k
  calc (openBr :: (a ++ closeBr :: k)).drop (a.length + 2 + 1)
      = ((openBr :: (a ++ closeBr :: k)).drop (a.length + 2)).drop 1 := by
        rw [List.drop_drop]
    _ = k.drop 1 := by rw [h]

theorem parseDir_wf (a k : List Char) (ha1 : closeBr ∉ a) (ha2 : nulC ∉ a) :
    parseDir (openBr :: (a ++ closeBr :: k)) =
      DirParse.dir (some a) (peekC k) (a.length + 3) := by
  unfold parseDir
  rw [if_pos (by simp [peekC])]
  simp only [List.tail_cons]
  rw [findClose_aux a k ha1 ha2]
  simp only []
  rw [drop_past_close a k]
  congr 1
  rw [List.take_left]

theorem scan_dir_step (env : Env) (dw : Bool) (cpn : Nat) (f : Nat) (st : FmtSt)
    (arg : Option (List Char)) (d : Char) (nn : Nat) (l1 : List Char)
    (hp : parseDir l1 = DirParse.dir arg d nn) (hd : d ≠ 'c') :
    fmtScan env dw cpn f st (pctC :: l1) =
      fmtScan env dw cpn f (fmtStep env dw cpn arg d st) (l1.drop nn) := by
  rw [fmtScan]
  simp only [if_neg (show ¬pctC = nulC by decide), if_pos rfl, hp, if_neg hd]
  simp

/-- C4: a bracketed `%T` argument is split on commas into at most three
labels positionally overriding the defaults, absent slots keeping the
default labels; more than three labels is a non-fatal reported error
after which the defaults are used, and the interpreter continues with the
rest of the template either way. -/
theorem C4_total (env : Env) :
    (∀ a : List Char, (wsplitComma a).length ≤ 3 →
       totalLabels (some a) =
         (wsplitComma a ++ checkpoint_total_format.drop (wsplitComma a).length, false)) ∧
    (∀ a : List Char, 3 < (wsplitComma a).length →
       totalLabels (some a) = (checkpoint_total_format, true)) ∧
    (∀ (dw : Bool) (cpn : Nat) (st : FmtSt) (a : List Char), 3 < (wsplitComma a).length →
       fmtStep env dw cpn (some a) 'T' st =
         emitN { st with errs := st.errs ++ [tooManyMsg a] }
           (env.totalsOut checkpoint_total_format)) ∧
    (∀ (dw : Bool) (cpn f : Nat) (st : FmtSt) (a k : List Char),
       nulC ∉ a → closeBr ∉ a → peekC k ≠ 'c' →
       fmtScan env dw cpn f st (pctC :: openBr :: (a ++ closeBr :: k)) =
         fmtScan env dw cpn f (fmtStep env dw cpn (some a) (peekC k) st) (k.drop 1)) := by
  refine ⟨?_, ?_, ?_, ?_⟩
  · intro a h
    simp [totalLabels, Nat.not_lt.mpr h]
  · intro a h
    simp [totalLabels, h]
  · intro dw cpn st a h
    unfold fmtStep
    rw [if_neg (by decide), if_neg (by decide), if_neg (by decide), if_pos rfl]
    simp [totalLabels, h]
  · intro dw cpn f st a k hn1 hc1 hkc
    have hp := parseDir_wf a k hc1 hn1
    rw [scan_dir_step env dw cpn f st (some a) (peekC k) (a.length + 3)
      (openBr :: (a ++ closeBr :: k)) ?_ hkc]
    · rw [drop_past_letter a k]
    · exact hp

theorem C4_total_w :
    (wsplitComma ['X', ',', 'Y']).length ≤ 3 ∧
    totalLabels (some ['X', ',', 'Y']) = ([['X'], ['Y'], ['D']], false) ∧
    3 < (wsplitComma ['w', ',', 'x', ',', 'y', ',', 'z']).length ∧
    totalLabels (some ['w', ',', 'x', ',', 'y', ',', 'z']) = (checkpoint_total_format, true) := by
  refine ⟨by decide, ?_, by decide, ?_⟩
  · rw [(C4_total env0).1 ['X', ',', 'Y'] (by decide)]
    decide
  · exact (C4_total env0).2.1 ['w', ',', 'x', ',', 'y', ',', 'z'] (by decide)

/-- C3 (amended): the `%*` directive pads with spaces up to an explicit
width given as the bracketed argument; when the argument is absent the
target is the live terminal width (window-size probe, then COLUMNS, then
80), but when the argument is present and invalid the target is the fixed
width 80 — the live terminal width is not consulted; it never pads when
the running column count is already at or past the target. -/
theorem C3_star (env : Env) :
    (starWidth env none = getwidth env) ∧
    (∀ a : List Char, stoConsumed a = false ∨ (stoint a).2 ≠ [] →
       starWidth env (some a) = 80) ∧
    (∀ a : List Char, stoConsumed a = true → (stoint a).2 = [] →
       starWidth env (some a) = (stoint a).1) ∧
    (∀ w, env.winsz = some w → 0 < w → getwidth env = w) ∧
    (env.winsz = none → getwidth env = getwidthCols env) ∧
    (∀ (dw : Bool) (cpn : Nat) (arg : Option (List Char)) (st : FmtSt),
       fmtStep env dw cpn arg '*' st =
         { st with
           out := st.out ++ List.replicate (starWidth env arg - st.len) ' '
           len := max st.len (starWidth env arg) }) ∧
    (∀ (dw : Bool) (cpn : Nat) (arg : Option (List Char)) (st : FmtSt),
       starWidth env arg ≤ st.len → fmtStep env dw cpn arg '*' st = st) := by
  have hstep : ∀ (dw : Bool) (cpn : Nat) (arg : Option (List Char)) (st : FmtSt),
      fmtStep env dw cpn arg '*' st =
        { st with
          out := st.out ++ List.replicate (starWidth env arg - st.len) ' '
          len := max st.len (starWidth env arg) } := by
    intro dw cpn arg st
    unfold fmtStep
    rw [if_neg (by decide), if_neg (by decide), if_neg (by decide), if_neg (by decide),
        if_neg (by decide), if_pos rfl]
  refine ⟨rfl, ?_, ?_, ?_, ?_, hstep, ?_⟩
  · intro a h
    rcases h with h | h
    · simp [starWidth, h]
    · simp only [starWidth]
      rw [if_neg]
      simp only [Bool.and_eq_true, not_and]
      intro _ hx
      exact absurd (by simpa using hx) h
  · intro a h1 h2
    simp [starWidth, h1, h2]
  · intro w hw hpos
    unfold getwidth
    rw [hw]
    simp [hpos]
  · intro hw
    unfold getwidth
    rw [hw]
  · intro dw cpn arg st h
    rw [hstep]
    have h1 : starWidth env arg - st.len = 0 := Nat.sub_eq_zero_of_le h
    have h2 : max st.len (starWidth env arg) = st.len := Nat.max_eq_left h
    rw [h1, h2]
    simp

theorem C3_star_w :
    stoConsumed ['x'] = false ∧
    starWidth env0 (some ['x']) = 80 ∧
    starWidth env0 none = getwidth env0 ∧
    getwidth env0 = 100 := by
  refine ⟨by decide, (C3_star env0).2.1 ['x'] (Or.inl (by decide)), (C3_star env0).1, ?_⟩
  exact (C3_star env0).2.2.2.1 100 rfl (by decide)

/-- C3 counterexample: with the window-size probe reporting 100 columns,
rendering `%{x}*` (invalid argument `x`) from column 0 pads to 80
columns, not to the live terminal width 100 as the claim states. -/
theorem C3_cex :
    fmtScan env0 false 0 2 (initFmtSt 0) [pctC, openBr, 'x', closeBr, '*'] =
      some { out := List.replicate 80 ' ', len := 80, errs := [], dirty := false } ∧
    getwidth env0 = 100 ∧ (80 : Nat) ≠ 100 := by
  refine ⟨?_, by decide, by decide⟩
  rw [fmtScan]
  simp +decide [parseDir, peekC, fmtStep, starWidth, stoint, stointGo, stoConsumed,
    initFmtSt, env0, emitN, fmtScan]

/-- C10: the Format Interpreter's scan does read past the terminating
NUL when the template's final character is a bare `%`: the terminator is
consumed as the directive letter by the literal-passthrough branch, and
the loop then advances beyond it, rendering whatever bytes follow the
template in memory (here an `A` before the next zero byte). -/
theorem C10_overrun :
    fmtScan env0 false 0 2 (initFmtSt 0) ([pctC] ++ [nulC] ++ ['A', nulC]) =
      some { out := [pctC, nulC, 'A'], len := 3, errs := [], dirty := false } ∧
    'A' ∉ [pctC] ++ [nulC] := by
  refine ⟨?_, by decide⟩
  simp +decide [parseDir, peekC, fmtStep, initFmtSt, env0, emitN, fmtScan]

theorem run_tick_fields (env : Env) (dw : Bool) (st : CkSt) :
    (checkpoint_run env dw st).st.sigs = st.sigs ∧
    (checkpoint_run env dw st).st.blocked = st.blocked ∧
    (∀ e ∈ (checkpoint_run env dw st).evs, ∃ a, e = Ev.acted a st.sigs st.blocked) := by
  unfold checkpoint_run
  by_cases h1 : st.checkpoint_option ≠ 0
  · rw [if_pos h1]
    by_cases h2 : (st.checkpoint + 1) % st.checkpoint_option = 0
    · rw [if_pos h2]
      have hs := run_actions_spec env dw { st with checkpoint := st.checkpoint + 1 }
      refine ⟨hs.2.2.2.2.1, hs.2.2.2.2.2.1, ?_⟩
      intro e he
      simp only [] at he
      rw [hs.2.2.2.2.2.2] at he
      simp only [List.mem_map] at he
      obtain ⟨a, _, ha⟩ := he
      exact ⟨a, ha.symm⟩
    · rw [if_neg h2]
      exact ⟨rfl, rfl, by simp⟩
  · rw [if_neg h1]
    exact ⟨rfl, rfl, by simp⟩

theorem ticks_evs (env : Env) (dws : List Bool) :
    ∀ st : CkSt,
      (ticksRun env dws st).1.sigs = st.sigs ∧
      (ticksRun env dws st).1.blocked = st.blocked ∧
      (∀ e ∈ (ticksRun env dws st).2, ∃ a, e = Ev.acted a st.sigs st.blocked) := by
  induction dws with
  | nil => intro st; exact ⟨rfl, rfl, by simp [ticksRun]⟩
  | cons dw rest ih =>
    intro st
    obtain ⟨t1, t2, t3⟩ := run_tick_fields env dw st
    obtain ⟨i1, i2, i3⟩ := ih (checkpoint_run env dw st).st
    simp only [ticksRun]
    refine ⟨by rw [i1, t1], by rw [i2, t2], ?_⟩
    intro e he
    simp only [List.mem_append] at he
    rcases he with he | he
    · exact t3 e he
    · obtain ⟨a, ha⟩ := i3 e he
      rw [t1, t2] at ha
      exact ⟨a, ha⟩

theorem finish_fire (env : Env) (st' : CkSt) (hfire : st'.cstate = CState.CHKP_COMPILE) :
    (checkpoint_finish_compile env st').2 =
      [Ev.block st'.sigs (st'.blocked ++ st'.sigs)] ∧
    (checkpoint_finish_compile env st').1.sigs = st'.sigs ∧
    (checkpoint_finish_compile env st').1.blocked = st'.blocked ++ st'.sigs := by
  unfold checkpoint_finish_compile
  simp [hfire]

theorem finish_fire_init (env : Env) (st' : CkSt) (hi : st'.cstate = CState.CHKP_INIT)
    (ho : st'.checkpoint_option ≠ 0) (ha : st'.actions = []) :
    (checkpoint_finish_compile env st').2 = [Ev.block [] (st'.blocked ++ [])] ∧
    (checkpoint_finish_compile env st').1.sigs = [] ∧
    (checkpoint_finish_compile env st').1.blocked = st'.blocked ++ [] := by
  have hech := compile_echo_eval env st' hi
  unfold checkpoint_finish_compile
  rw [hech]
  simp [hi, ho, ha]

/-- C2: in every valid call sequence — compile_action zero or more times,
then finish_compile, then run_tick any number of times — with at least
one action or checkpointing requested, the accumulated Signal Set is
blocked process-wide exactly once, by the one block event emitted at the
Compiling-to-Running transition inside finish_compile; that event comes
strictly before every action execution of the run phase, and every
executed wait action waits on a signal set wholly contained in the
process mask in force at that moment. -/
theorem C2_signal_block (env : Env) (opt : Nat) (mask0 : List Nat)
    (specs : List (List Char)) (dws : List Bool) (stF : CkSt) (tr : List Ev)
    (h : runSeq env opt mask0 specs dws = some (stF, tr))
    (hne : specs ≠ [] ∨ opt ≠ 0) :
    ∃ S M rest, tr = Ev.block S M :: rest ∧
      S ⊆ M ∧
      (∀ e ∈ rest, ∃ a, e = Ev.acted a S M) ∧
      tr.countP (fun e => match e with | Ev.block _ _ => true | _ => false) = 1 := by
  unfold runSeq at h
  rcases hc : compileAll env specs (initSt opt mask0) with e | st' <;> rw [hc] at h
  · simp at h
  · simp only [Option.some.injEq, Prod.mk.injEq] at h
    obtain ⟨h1, h2⟩ := h
    obtain ⟨a1, a2, a3, a4, a5, a6, a7⟩ := compileAll_ok env specs (initSt opt mask0) st' hc
    simp only [initSt] at a1 a3 a7
    have key : ∃ S M,
        (checkpoint_finish_compile env st').2 = [Ev.block S M] ∧
        (checkpoint_finish_compile env st').1.sigs = S ∧
        (checkpoint_finish_compile env st').1.blocked = M ∧
        S ⊆ M := by
      by_cases hs : specs = []
      · have ho : opt ≠ 0 := by
          rcases hne with hx | hx
          · exact absurd hs hx
          · exact hx
        subst hs
        have a7' : st'.cstate = CState.CHKP_INIT := by simpa using a7
        have ha : st'.actions = [] := by simpa using a1
        obtain ⟨f1, f2, f3⟩ := finish_fire_init env st' a7' (by rw [a3]; exact ho) ha
        exact ⟨[], st'.blocked ++ [], f1, f2, f3, by simp⟩
      · have hcst : st'.cstate = CState.CHKP_COMPILE := by
          rw [a7]
          simp [hs]
        obtain ⟨f1, f2, f3⟩ := finish_fire env st' hcst
        exact ⟨st'.sigs, st'.blocked ++ st'.sigs, f1, f2, f3,
               fun x hx => List.mem_append_right _ hx⟩
    obtain ⟨S, M, f1, f2, f3, hSM⟩ := key
    obtain ⟨t1, t2, t3⟩ := ticks_evs env dws (checkpoint_finish_compile env st').1
    rw [f2, f3] at t3
    refine ⟨S, M, (ticksRun env dws (checkpoint_finish_compile env st').1).2, ?_, hSM, t3, ?_⟩
    · rw [← h2, f1]
      rfl
    · rw [← h2, f1]
      rw [List.singleton_append, List.countP_cons]
      have hz : List.countP
          (fun e => match e with | Ev.block _ _ => true | _ => false)
          (ticksRun env dws (checkpoint_finish_compile env st').1).2 = 0 := by
        rw [List.countP_eq_zero]
        intro e he
        obtain ⟨a, ha⟩ := t3 e he
        simp [ha]
      rw [hz]
      simp

theorem C2_signal_block_w :
    ∃ stF tr, runSeq env0 1 [] [['w', 'a', 'i', 't', '=', 'U']] [true] = some (stF, tr) ∧
      ∃ S M rest, tr = Ev.block S M :: rest ∧
        S ⊆ M ∧
        (∀ e ∈ rest, ∃ a, e = Ev.acted a S M) ∧
        tr.countP (fun e => match e with | Ev.block _ _ => true | _ => false) = 1 := by
  rcases hr : runSeq env0 1 [] [['w', 'a', 'i', 't', '=', 'U']] [true] with _ | ⟨stF, tr⟩
  · exact absurd hr (by decide)
  · exact ⟨stF, tr, rfl,
      C2_signal_block env0 1 [] [['w', 'a', 'i', 't', '=', 'U']] [true] stF tr hr
        (Or.inr (by decide))⟩

/-- C2 counterexample: in the valid call sequence with zero compiled
actions and checkpointing disabled (interval 0), finish_compile never
reaches the Compiling state, so the signal set is blocked zero times —
not exactly once as the claim quantifies over every valid sequence. -/
theorem C2_cex :
    runSeq env0 0 [] [] [true] = some (initSt 0 [], []) ∧
    List.countP (fun e => match e with | Ev.block _ _ => true | _ => false)
      ([] : List Ev) = 0 ∧
    (0 : Nat) ≠ 1 := by
  refine ⟨by decide, rfl, by decide⟩

end TarCheckpoint
